import Mathlib

/-!
Verification of the aezeedcheck repository (`main.go`): a tool that derives,
from recovered aezeed cipher-seed entropy, the lnd node identity key and the
first native/nested SegWit addresses, and prints a four-line report.

Bytes are modelled as `Nat` (values < 256 where they come from real byte
buffers); machine `uint32` arithmetic is modelled with explicit `% 2^32`.
The cryptographic primitives (HMAC-SHA512, hash160, secp256k1 point
operations, address string encodings) are external library collaborators
declared out of scope by the design, so they appear as an explicit
parameter record `CryptoPrims`; everything built on top of them is
executable once concrete primitives are supplied.
-/

deriving instance DecidableEq for Except

namespace Aezeedcheck

/-- Big-endian serialization of `n` into exactly `w` bytes (mod 256 each). -/
def beBytes : Nat → Nat → List Nat
  | 0, _ => []
  | w + 1, n => beBytes w (n / 256) ++ [n % 256]

/-- Big-endian interpretation of a byte list as a natural number. -/
def natOfBe (bs : List Nat) : Nat :=
  bs.foldl (fun acc b => acc * 256 + b) 0

/-- Byte values of a string (ASCII, as used for the HMAC salt and password). -/
def byteList (s : String) : List Nat :=
  s.data.map Char.toNat

/-- `uint32` truncation, for Go's wrapping 32-bit addition. -/
def u32 (n : Nat) : Nat := n % 2 ^ 32

/-- The secp256k1 group order, used for the scalar-range checks of BIP32
child derivation. -/
def curveOrder : Nat :=
  0xFFFFFFFFFFFFFFFFFFFFFFFFFFFFFFFEBAAEDCE6AF48A03BBFD25E8CD0364141

/-- Cryptographic primitives the core consumes.  The design treats
elliptic-curve arithmetic, the hash functions and the final address text
encodings as external collaborators, so they are passed in as data:
`hmacSHA512 key data` is the 64-byte HMAC digest, `hash160` is
RIPEMD160 ∘ SHA256 (20 bytes), `pubOf k` is the 33-byte compressed
serialization of `k·G`, `pubAdd p t` serializes `P + t·G` for an already
serialized point `p`, and the two encoders render addresses as text. -/
structure CryptoPrims where
  hmacSHA512 : List Nat → List Nat → List Nat
  hash160 : List Nat → List Nat
  pubOf : Nat → List Nat
  pubAdd : List Nat → Nat → List Nat
  encodeSegWit : String → List Nat → String
  encodeBase58 : Nat → List Nat → String

/-- Key material of an extended-key node: a private scalar or an
already-serialized compressed public point. -/
inductive KeyMaterial where
  | priv (scalar : Nat)
  | pub (serialized : List Nat)
deriving DecidableEq

/-- Whether the node carries private key material. -/
def KeyMaterial.isPriv : KeyMaterial → Bool
  | .priv _ => true
  | .pub _ => false

/-- Network parameters relevant to this program: the bech32 human-readable
part, the base58 script-hash version byte, and the HD extended-private-key
version bytes. -/
structure NetParams where
  bech32HRP : String
  scriptHashAddrID : Nat
  hdPrivateKeyID : List Nat
deriving DecidableEq

/-- Bitcoin mainnet parameters (`chaincfg.MainNetParams`): HRP `bc`,
script-hash version `0x05`, xprv magic `0x0488ade4`. -/
def mainNetParams : NetParams :=
  { bech32HRP := "bc", scriptHashAddrID := 5, hdPrivateKeyID := [4, 136, 173, 228] }

/-- An extended-key node of the HD tree (`hdkeychain.ExtendedKey`):
depth, parent fingerprint, child index, chain code, key material, and the
network version bytes it was created for. -/
structure ExtendedKey where
  depth : Nat
  parentFP : List Nat
  childIndex : Nat
  chainCode : List Nat
  key : KeyMaterial
  net : List Nat
deriving DecidableEq

/-- Errors of the derivation/encoding pipeline.  `wrap` models the
`fmt.Errorf("...: %v", err)` wrapping done by `deriveAccountKey` and the
fatal-log call sites in `main`; the carried string includes the separator. -/
inductive DerivErr where
  | hardenedFromPublicOnly
  | invalidTweak
  | invalidSeedLength
  | encodingError
  | wrap (msg : String) (inner : DerivErr)
deriving DecidableEq

/-- Rendering of an error as text, as `%v` formatting would show it. -/
def errText : DerivErr → String
  | .hardenedFromPublicOnly => "cannot derive a hardened key from a public key"
  | .invalidTweak => "the extended key at this index is invalid"
  | .invalidSeedLength => "seed length must be 16 bytes"
  | .encodingError => "witness program must be 20 bytes"
  | .wrap msg inner => msg ++ errText inner

/-- First index of the hardened range (`hdkeychain.HardenedKeyStart`). -/
def hardenedKeyStart : Nat := 2 ^ 31

/-- Serialized compressed public key of a node's key material. -/
def serializeKeyMaterial (prims : CryptoPrims) : KeyMaterial → List Nat
  | .priv k => prims.pubOf k
  | .pub b => b

/-- Modelled from the spec: `hdkeychain.(*ExtendedKey).Child` is library
code not present in `src/`.  Per §4.1, an index `≥ 2^31` is hardened;
hardened derivation from public-only material fails with
`HardenedFromPublicOnly`; otherwise an HMAC-SHA512 of the serialized parent
key material (private scalar with a leading zero byte when hardened,
compressed point when not) and the big-endian 4-byte index, keyed by the
parent chain code, is split into a 32-byte tweak and the child chain code;
the child private scalar is `(tweak + parent) mod curveOrder` (or
`tweak·G + P` for a public parent), failing with `InvalidTweak` when the
tweak is out of range or the resulting scalar is zero. -/
def child (prims : CryptoPrims) (parent : ExtendedKey) (i : Nat) :
    Except DerivErr ExtendedKey :=
  match parent.key with
  | .pub point =>
    if hardenedKeyStart ≤ i then
      .error .hardenedFromPublicOnly
    else
      let digest := prims.hmacSHA512 parent.chainCode (point ++ beBytes 4 i)
      let tweak := natOfBe (digest.take 32)
      if curveOrder ≤ tweak then
        .error .invalidTweak
      else
        .ok { depth := parent.depth + 1,
              parentFP := (prims.hash160 point).take 4,
              childIndex := i,
              chainCode := (digest.drop 32).take 32,
              key := .pub (prims.pubAdd point tweak),
              net := parent.net }
  | .priv k =>
    let keyData := if hardenedKeyStart ≤ i then 0 :: beBytes 32 k else prims.pubOf k
    let digest := prims.hmacSHA512 parent.chainCode (keyData ++ beBytes 4 i)
    let tweak := natOfBe (digest.take 32)
    if curveOrder ≤ tweak ∨ (tweak + k) % curveOrder = 0 then
      .error .invalidTweak
    else
      .ok { depth := parent.depth + 1,
            parentFP := (prims.hash160 (prims.pubOf k)).take 4,
            childIndex := i,
            chainCode := (digest.drop 32).take 32,
            key := .priv ((tweak + k) % curveOrder),
            net := parent.net }

/-- HMAC salt of the standard seed-to-master derivation. -/
def masterKeySalt : List Nat := byteList "Bitcoin seed"

/-- Modelled from the spec: `hdkeychain.NewMaster` is library code not
present in `src/`.  Per §4.4/§6/§7 the entropy buffer has a required fixed
size of 16 bytes and master construction fails with `InvalidSeedLength`
otherwise; the master node comes from the standard HMAC-SHA512 seed
derivation, with the usual scalar-range check. -/
def newMaster (prims : CryptoPrims) (seed : List Nat) (net : NetParams) :
    Except DerivErr ExtendedKey :=
  if seed.length ≠ 16 then
    .error .invalidSeedLength
  else
    let digest := prims.hmacSHA512 masterKeySalt seed
    let k := natOfBe (digest.take 32)
    if curveOrder ≤ k ∨ k = 0 then
      .error .invalidTweak
    else
      .ok { depth := 0, parentFP := [0, 0, 0, 0], childIndex := 0,
            chainCode := (digest.drop 32).take 32,
            key := .priv k,
            net := net.hdPrivateKeyID }

/-- Modelled from the spec: `ECPubKey` extracts the compressed public key
of a node (serializing `k·G` for private material). -/
def ecPubKey (prims : CryptoPrims) (k : ExtendedKey) : Except DerivErr (List Nat) :=
  match k.key with
  | .priv s => .ok (prims.pubOf s)
  | .pub b => .ok b

/-- `keychain.CoinTypeBitcoin`. -/
def coinTypeBitcoin : Nat := 0

/-- `keychain.BIP0043Purpose`. -/
def bip0043Purpose : Nat := 1017

/-- `keychain.KeyFamilyNodeKey`. -/
def keyFamilyNodeKey : Nat := 6

/-- `waddrmgr.KeyScopeBIP0084.Purpose`. -/
def bip0084Purpose : Nat := 84

/-- `waddrmgr.KeyScopeBIP0049Plus.Purpose`. -/
def bip0049PlusPurpose : Nat := 49

/-- `deriveAccountKey` from `src/main.go`: three child derivations at the
`uint32` indices `purpose + 2^31`, `coinTypeBitcoin + 2^31` and
`keyFamily + 2^31`, each failure wrapped with its own message. -/
def deriveAccountKey (prims : CryptoPrims) (rootKey : ExtendedKey)
    (purpose keyFamily : Nat) : Except DerivErr ExtendedKey :=
  match child prims rootKey (u32 (purpose + hardenedKeyStart)) with
  | .error e => .error (.wrap "unable to derive purpose key; " e)
  | .ok purposeKey =>
    match child prims purposeKey (u32 (coinTypeBitcoin + hardenedKeyStart)) with
    | .error e => .error (.wrap "unable to generate coin type key: " e)
    | .ok coinTypeKey =>
      match child prims coinTypeKey (u32 (keyFamily + hardenedKeyStart)) with
      | .error e => .error (.wrap "unable to derive account key: " e)
      | .ok accountKey => .ok accountKey

/-- `deriveFirstKey` from `src/main.go`: the account key, then external
branch `0`, then first index `0`, then the compressed public key. -/
def deriveFirstKey (prims : CryptoPrims) (rootKey : ExtendedKey)
    (purpose keyFamily : Nat) : Except DerivErr (List Nat) :=
  match deriveAccountKey prims rootKey purpose keyFamily with
  | .error e => .error e
  | .ok accountKey =>
    match child prims accountKey 0 with
    | .error e => .error e
    | .ok externalBranch =>
      match child prims externalBranch 0 with
      | .error e => .error e
      | .ok firstChild => ecPubKey prims firstChild

/-- Typed addresses as the program builds them: a version-0 witness
pubkey-hash address (bech32, 20-byte program) or a legacy script-hash
address (base58, 20-byte hash), each tagged with its network identifiers. -/
inductive Address where
  | witnessPubKeyHash (hrp : String) (program : List Nat)
  | scriptHash (netID : Nat) (hash : List Nat)
deriving DecidableEq

/-- Modelled from the spec: `btcutil.NewAddressWitnessPubKeyHash` is
library code not present in `src/`.  It accepts exactly a 20-byte witness
program and tags it with the network's bech32 HRP; any other length is the
defensive `EncodingError` of §4.3. -/
def newAddressWitnessPubKeyHash (hash : List Nat) (net : NetParams) :
    Except DerivErr Address :=
  if hash.length = 20 then
    .ok (.witnessPubKeyHash net.bech32HRP hash)
  else
    .error .encodingError

/-- Modelled from the spec: `txscript.PayToAddrScript` on a witness
pubkey-hash address serializes the version-0 witness program as a script,
`OP_0 OP_DATA_20 <20-byte hash>`. -/
def payToAddrScript : Address → Except DerivErr (List Nat)
  | .witnessPubKeyHash _ program => .ok (0 :: 20 :: program)
  | .scriptHash _ hash => .ok (169 :: 20 :: (hash ++ [135]))

/-- Modelled from the spec: `btcutil.NewAddressScriptHash` is library code
not present in `src/`.  It applies hash160 to the serialized redemption
script and encodes the 20-byte result as a legacy script-hash address. -/
def newAddressScriptHash (prims : CryptoPrims) (script : List Nat)
    (net : NetParams) : Except DerivErr Address :=
  let scriptHash := prims.hash160 script
  if scriptHash.length = 20 then
    .ok (.scriptHash net.scriptHashAddrID scriptHash)
  else
    .error .encodingError

/-- `keyToP2wkhAddr` from `src/main.go`: hash160 of the compressed key as
a native witness address, always on mainnet.  The compressed 33-byte
serialization of the input `btcec.PublicKey` stands for the key itself. -/
def keyToP2wkhAddr (prims : CryptoPrims) (key : List Nat) :
    Except DerivErr Address :=
  newAddressWitnessPubKeyHash (prims.hash160 key) mainNetParams

/-- `keyToNp2wkhAddr` from `src/main.go`: the native witness address of
the key, its pay-to-address script as witness program, and that program
hashed into a legacy script-hash address, always on mainnet. -/
def keyToNp2wkhAddr (prims : CryptoPrims) (key : List Nat) :
    Except DerivErr Address :=
  match newAddressWitnessPubKeyHash (prims.hash160 key) mainNetParams with
  | .error e => .error e
  | .ok witAddr =>
    match payToAddrScript witAddr with
    | .error e => .error e
    | .ok witnessProgram => newAddressScriptHash prims witnessProgram mainNetParams

/-- Address rendered as text, via the external encoders (`%v` on a
`btcutil.Address` prints its encoded form). -/
def encodeAddress (prims : CryptoPrims) : Address → String
  | .witnessPubKeyHash hrp program => prims.encodeSegWit hrp program
  | .scriptHash netID hash => prims.encodeBase58 netID hash

/-- Lowercase hexadecimal digit for a value below 16. -/
def hexDigit (n : Nat) : Char :=
  if n < 10 then Char.ofNat (48 + n) else Char.ofNat (87 + n)

/-- Two lowercase hex characters per byte, as `hex.EncodeToString`. -/
def hexChars : List Nat → List Char
  | [] => []
  | b :: bs => hexDigit (b / 16 % 16) :: hexDigit (b % 16) :: hexChars bs

/-- `hex.EncodeToString`: lowercase hex rendering of a byte list. -/
def hexEncode (bs : List Nat) : String := String.mk (hexChars bs)

/-- Whether a character is a lowercase hexadecimal digit. -/
def isLowerHexChar (c : Char) : Bool :=
  (48 ≤ c.toNat && c.toNat ≤ 57) || (97 ≤ c.toNat && c.toNat ≤ 102)

/-- Whether every character of the string is a lowercase hex digit. -/
def isLowerHexStr (s : String) : Bool := s.data.all isLowerHexChar

/-- Modelled from the spec: the cipher-seed recovery collaborator
(`aezeed`) is external; its result carries a birthday timestamp (already
rendered, passed through unchanged), a small version tag, and the 16-byte
entropy. -/
structure CipherSeed where
  birthdayTime : String
  internalVersion : Nat
  entropy : List Nat
deriving DecidableEq

/-- Process outcome of the run: normal termination, or `log.Fatalf` with a
message (which exits with a non-zero status). -/
inductive ExitStatus where
  | success
  | fatal (msg : String)
deriving DecidableEq

/-- The first report line, printed by `main` right after decryption:
`Wallet Birthday: <timestamp>, Internal Version: <version>`. -/
def birthdayLine (cs : CipherSeed) : String :=
  "Wallet Birthday: " ++ cs.birthdayTime ++ ", Internal Version: " ++
    toString cs.internalVersion

/-- The post-decryption body of `main` from `src/main.go`: prints the
birthday line, builds the mainnet master key, derives the node key and the
two address keys, encodes the two addresses, and prints the remaining
three lines.  The result is the list of stdout lines in print order
together with the exit status; every `log.Fatalf` branch carries the lines
already printed at that point.  (`fmt.Println` joins its arguments with a
single space, hence the double spaces after the `: ` labels.) -/
def runFromCipherSeed (prims : CryptoPrims) (cs : CipherSeed) :
    List String × ExitStatus :=
  let line1 := birthdayLine cs
  match newMaster prims cs.entropy mainNetParams with
  | .error e => ([line1], .fatal ("unable to make HD priv root: " ++ errText e))
  | .ok rootKey =>
    match deriveFirstKey prims rootKey bip0043Purpose keyFamilyNodeKey with
    | .error e => ([line1], .fatal ("unable to derive node key: " ++ errText e))
    | .ok nodePub =>
      match deriveFirstKey prims rootKey bip0084Purpose 0 with
      | .error e =>
        ([line1], .fatal ("unable to derive first segwit addr: " ++ errText e))
      | .ok firstP2wkhKey =>
        match keyToP2wkhAddr prims firstP2wkhKey with
        | .error e =>
          ([line1], .fatal ("unable to create p2wkh addr: " ++ errText e))
        | .ok firstSegwitAddr =>
          match deriveFirstKey prims rootKey bip0049PlusPurpose 0 with
          | .error e =>
            ([line1],
              .fatal ("unable to derive first nested segwit addr: " ++ errText e))
          | .ok firstNp2wkhKey =>
            match keyToNp2wkhAddr prims firstNp2wkhKey with
            | .error e =>
              ([line1], .fatal ("unable to create np2wkh addr: " ++ errText e))
            | .ok firstNestedSegwitAddr =>
              ([line1,
                "Node pub key:  " ++ hexEncode nodePub,
                "First p2wkh address:  " ++ encodeAddress prims firstSegwitAddr,
                "First n2pwkh address " ++ encodeAddress prims firstNestedSegwitAddr],
                .success)

/-- `aezeed.NummnemonicWords`. -/
def numMnemonicWords : Nat := 24

/-- Splitting on every single space character, with the semantics of Go's
`strings.Split(s, " ")`: consecutive separators give empty fields and the
empty input gives one empty field. -/
def splitChars : List Char → List (List Char)
  | [] => [[]]
  | c :: cs =>
    match splitChars cs with
    | [] => [[]]
    | w :: ws => if c = ' ' then [] :: w :: ws else (c :: w) :: ws

/-- `strings.Split(s, " ")` on strings. -/
def splitWords (s : String) : List String :=
  (splitChars s.data).map String.mk

/-- Interface of the external `aezeed` decryption call
(`Mnemonic.ToCipherSeed`): the mnemonic words and the optional password
either decrypt to a cipher seed or fail with a message. -/
def SeedOracle : Type :=
  List String → Option (List Nat) → Except String CipherSeed

/-- Outcome of the whole process: the empty-flag usage path (prints the
flag defaults and exits with status zero, no report), an early
`log.Fatalf` before any report line, or the post-decryption run. -/
inductive EntryResult where
  | usage
  | fatalEarly (msg : String)
  | run (outcome : List String × ExitStatus)
deriving DecidableEq

/-- `main` from `src/main.go` after flag parsing, over the external
decryption oracle: an empty mnemonic prints the defaults and returns;
otherwise the flag is split on single spaces and anything but exactly
`numMnemonicWords` words is fatal before decryption; otherwise the words
and optional password are handed to the oracle and, on success, the
pipeline runs. -/
def main (prims : CryptoPrims) (oracle : SeedOracle)
    (mnemonicFlag passFlag : String) : EntryResult :=
  if mnemonicFlag = "" then
    .usage
  else
    let mnemonicPhrase := splitWords mnemonicFlag
    if mnemonicPhrase.length ≠ numMnemonicWords then
      .fatalEarly ("expected " ++ toString numMnemonicWords ++
        " words, instead got " ++ toString mnemonicPhrase.length)
    else
      let password := if passFlag = "" then none else some (byteList passFlag)
      match oracle mnemonicPhrase password with
      | .error e => .fatalEarly ("unable to decrypt cipher seed: " ++ e)
      | .ok cipherSeed => .run (runFromCipherSeed prims cipherSeed)

/-- From the spec (§3/§4.2): a derivation path as an ordered sequence of
(already combined) child indices, walked one `child` step at a time. -/
def derivePath (prims : CryptoPrims) (root : ExtendedKey) :
    List Nat → Except DerivErr ExtendedKey
  | [] => .ok root
  | i :: rest =>
    match child prims root i with
    | .error e => .error e
    | .ok k => derivePath prims k rest

/-- The three leaf-key derivations exactly as `main` invokes them, as one
tuple: each component is `deriveFirstKey` on the same root with its own
(purpose, key family) pair. -/
def deriveThree (prims : CryptoPrims) (root : ExtendedKey)
    (a b c : Nat × Nat) :
    Except DerivErr (List Nat) × Except DerivErr (List Nat) ×
      Except DerivErr (List Nat) :=
  (deriveFirstKey prims root a.1 a.2,
   deriveFirstKey prims root b.1 b.2,
   deriveFirstKey prims root c.1 c.2)

/-- From the spec (§4.3): the native witness program payload of a public
key is hash160 of its compressed serialization (witness version 0). -/
def nativeWitnessProgram (prims : CryptoPrims) (pub : List Nat) : List Nat :=
  prims.hash160 pub

/-- From the spec (§4.3/§8): the version-0 witness program serialized as a
redemption script — version byte `OP_0`, a 20-byte data push, the
program. -/
def serializeAsScript (program : List Nat) : List Nat :=
  0 :: 20 :: program

/-- From the spec (§8): legacy base58 script-hash encoding of an already
hashed 20-byte payload, on mainnet. -/
def legacyScriptHashEncode (hash : List Nat) : Address :=
  .scriptHash mainNetParams.scriptHashAddrID hash

/-- Whether an address carries the mainnet network identifiers. -/
def isMainnetAddr : Address → Bool
  | .witnessPubKeyHash hrp _ => hrp == mainNetParams.bech32HRP
  | .scriptHash netID _ => netID == mainNetParams.scriptHashAddrID

/-- Concrete toy primitives used to evaluate the model on closed inputs:
a constant HMAC whose tweak half encodes 1, truncation-style hashes, and
an injective 33-byte point serialization.  They satisfy the shape
properties (output lengths) the witnesses need. -/
def toyPrims : CryptoPrims :=
  { hmacSHA512 := fun _ _ => beBytes 32 1 ++ beBytes 32 2,
    hash160 := fun bs => (bs ++ List.replicate 20 0).take 20,
    pubOf := fun k => 2 :: beBytes 32 k,
    pubAdd := fun p t => 3 :: (p ++ beBytes 32 t).take 32,
    encodeSegWit := fun hrp h => hrp ++ "1" ++ hexEncode h,
    encodeBase58 := fun v h => toString v ++ ":" ++ hexEncode h }

/-- Toy primitives whose HMAC is all zeroes: the master-key scalar comes
out zero, so master construction fails its range check. -/
def toyZeroPrims : CryptoPrims :=
  { toyPrims with hmacSHA512 := fun _ _ => List.replicate 64 0 }

/-- A concrete cipher seed: 16 zero bytes of entropy. -/
def cs0 : CipherSeed :=
  { birthdayTime := "t0", internalVersion := 0, entropy := List.replicate 16 0 }

/-- A concrete private root key (the toy master node). -/
def privRoot0 : ExtendedKey :=
  { depth := 0, parentFP := [0, 0, 0, 0], childIndex := 0,
    chainCode := beBytes 32 2, key := .priv 1,
    net := mainNetParams.hdPrivateKeyID }

/-- A concrete public-only root key. -/
def pubRoot0 : ExtendedKey :=
  { depth := 0, parentFP := [0, 0, 0, 0], childIndex := 0,
    chainCode := beBytes 32 2, key := .pub (2 :: beBytes 32 9),
    net := mainNetParams.hdPrivateKeyID }

/-- A concrete decryption oracle that always fails. -/
def toyOracle : SeedOracle := fun _ _ => .error "checksum mismatch"

/-- The concrete account key the toy primitives derive from `privRoot0`
under the node-key path (purpose 1017, key family 6). -/
def acct0 : ExtendedKey :=
  { depth := 3, parentFP := [2, 0, 0, 0], childIndex := 2147483654,
    chainCode := beBytes 32 2, key := .priv 4,
    net := mainNetParams.hdPrivateKeyID }

/-! ## Helper lemmas -/

theorem beBytes_length (w : Nat) : ∀ n, (beBytes w n).length = w := by
  induction w with
  | zero => intro n; rfl
  | succ w ih => intro n; simp [beBytes, ih]

theorem hexChars_length (bs : List Nat) : (hexChars bs).length = 2 * bs.length := by
  induction bs with
  | nil => rfl
  | cons b bs ih => simp [hexChars, ih]; ring

theorem hexEncode_length (bs : List Nat) : (hexEncode bs).length = 2 * bs.length :=
  hexChars_length bs

theorem hexDigit_lowerHex : ∀ n < 16, isLowerHexChar (hexDigit n) = true := by decide

theorem hexChars_lowerHex (bs : List Nat) :
    (hexChars bs).all isLowerHexChar = true := by
  induction bs with
  | nil => rfl
  | cons b bs ih =>
    have h1 : b / 16 % 16 < 16 := Nat.mod_lt _ (by norm_num)
    have h2 : b % 16 < 16 := Nat.mod_lt _ (by norm_num)
    simp [hexChars, List.all_cons, ih,
      hexDigit_lowerHex _ h1, hexDigit_lowerHex _ h2]

theorem hexEncode_lowerHex (bs : List Nat) :
    isLowerHexStr (hexEncode bs) = true :=
  hexChars_lowerHex bs

theorem child_priv (prims : CryptoPrims) (parent : ExtendedKey) (i : Nat)
    (c : ExtendedKey) (hp : parent.key.isPriv = true)
    (hc : child prims parent i = .ok c) : c.key.isPriv = true := by
  cases hk : parent.key with
  | pub b => rw [hk] at hp; simp [KeyMaterial.isPriv] at hp
  | priv k =>
    unfold child at hc
    rw [hk] at hc
    simp only [] at hc
    split at hc
    all_goals
      split at hc
      · exact Except.noConfusion hc
      · injection hc with hc
        rw [← hc]
        rfl

theorem newMaster_shape (prims : CryptoPrims) (seed : List Nat)
    (net : NetParams) (k : ExtendedKey)
    (h : newMaster prims seed net = .ok k) :
    k.key.isPriv = true ∧ k.net = net.hdPrivateKeyID := by
  unfold newMaster at h
  split at h
  · exact Except.noConfusion h
  · simp only [] at h
    split at h
    · exact Except.noConfusion h
    · injection h with h
      rw [← h]
      exact ⟨rfl, rfl⟩

theorem ecPubKey_of_priv (prims : CryptoPrims) (k : ExtendedKey)
    (h : k.key.isPriv = true) :
    ∃ s, k.key = .priv s ∧ ecPubKey prims k = .ok (prims.pubOf s) := by
  cases hk : k.key with
  | pub b => rw [hk] at h; simp [KeyMaterial.isPriv] at h
  | priv s =>
    refine ⟨s, rfl, ?_⟩
    unfold ecPubKey
    rw [hk]

theorem deriveAccountKey_priv (prims : CryptoPrims) (root : ExtendedKey)
    (p f : Nat) (k : ExtendedKey) (hr : root.key.isPriv = true)
    (h : deriveAccountKey prims root p f = .ok k) : k.key.isPriv = true := by
  unfold deriveAccountKey at h
  cases h1 : child prims root (u32 (p + hardenedKeyStart)) with
  | error e => rw [h1] at h; simp at h
  | ok k1 =>
    rw [h1] at h
    simp only [] at h
    have hk1 := child_priv _ _ _ _ hr h1
    cases h2 : child prims k1 (u32 (coinTypeBitcoin + hardenedKeyStart)) with
    | error e => rw [h2] at h; simp at h
    | ok k2 =>
      rw [h2] at h
      simp only [] at h
      have hk2 := child_priv _ _ _ _ hk1 h2
      cases h3 : child prims k2 (u32 (f + hardenedKeyStart)) with
      | error e => rw [h3] at h; simp at h
      | ok k3 =>
        rw [h3] at h
        simp only [] at h
        have hk3 := child_priv _ _ _ _ hk2 h3
        injection h with h
        rw [← h]
        exact hk3

theorem deriveFirstKey_pubOf (prims : CryptoPrims) (root : ExtendedKey)
    (p f : Nat) (pb : List Nat) (hr : root.key.isPriv = true)
    (h : deriveFirstKey prims root p f = .ok pb) : ∃ s, pb = prims.pubOf s := by
  unfold deriveFirstKey at h
  cases h1 : deriveAccountKey prims root p f with
  | error e => rw [h1] at h; simp at h
  | ok acct =>
    rw [h1] at h
    simp only [] at h
    have hacct := deriveAccountKey_priv _ _ _ _ _ hr h1
    cases h2 : child prims acct 0 with
    | error e => rw [h2] at h; simp at h
    | ok b1 =>
      rw [h2] at h
      simp only [] at h
      have hb1 := child_priv _ _ _ _ hacct h2
      cases h3 : child prims b1 0 with
      | error e => rw [h3] at h; simp at h
      | ok b2 =>
        rw [h3] at h
        simp only [] at h
        have hb2 := child_priv _ _ _ _ hb1 h3
        obtain ⟨s, _, hec⟩ := ecPubKey_of_priv prims b2 hb2
        rw [hec] at h
        exact ⟨s, by injection h with h; exact h.symm⟩

theorem main_badcount (prims : CryptoPrims) (oracle : SeedOracle)
    (m p : String) (hm : ¬ m = "")
    (hc : (splitWords m).length ≠ numMnemonicWords) :
    main prims oracle m p =
      .fatalEarly ("expected " ++ toString numMnemonicWords ++
        " words, instead got " ++ toString (splitWords m).length) := by
  simp only [main]
  rw [if_neg hm, if_pos hc]

/-! ## Claim theorems -/

/-- C5: `deriveFirstKey` is deterministic — two invocations on the same
root key and the same (purpose, keyFamily) pair produce the identical
result; the embedding is a pure function of exactly these inputs (plus
the fixed crypto primitives), with no hidden state. -/
theorem deriveFirstKey_deterministic (prims : CryptoPrims)
    (root : ExtendedKey) (p f : Nat) (x y : Except DerivErr (List Nat))
    (h1 : deriveFirstKey prims root p f = x)
    (h2 : deriveFirstKey prims root p f = y) : x = y :=
  h1.symm.trans h2

theorem deriveFirstKey_deterministic_witness :
    (Except.ok (2 :: beBytes 32 6) : Except DerivErr (List Nat)) =
      deriveFirstKey toyPrims privRoot0 1017 6 :=
  deriveFirstKey_deterministic toyPrims privRoot0 1017 6 _ _ (by decide) rfl

/-- C6: path independence — in the triple of leaf keys `main` derives,
each component depends only on the root key and its own
(purpose, keyFamily) pair: changing the pairs used for the other two
paths leaves it unchanged. -/
theorem deriveFirstKey_path_independent (prims : CryptoPrims)
    (root : ExtendedKey) (a b c b2 c2 a3 c3 a4 b4 : Nat × Nat) :
    (deriveThree prims root a b c).1 = (deriveThree prims root a b2 c2).1 ∧
    (deriveThree prims root a b c).2.1 =
      (deriveThree prims root a3 b c3).2.1 ∧
    (deriveThree prims root a b c).2.2 =
      (deriveThree prims root a4 b4 c).2.2 := by
  refine ⟨?_, ?_, ?_⟩ <;> simp only [deriveThree]

/-- C7: master construction on an entropy buffer that is not the required
fixed size of 16 bytes fails with `InvalidSeedLength`, before any key
derivation, producing no key. -/
theorem newMaster_invalid_seed_length (prims : CryptoPrims)
    (seed : List Nat) (net : NetParams) (h : seed.length ≠ 16) :
    newMaster prims seed net = .error .invalidSeedLength := by
  unfold newMaster
  rw [if_pos h]

theorem newMaster_invalid_seed_length_witness :
    newMaster toyPrims (List.replicate 15 0) mainNetParams =
      .error .invalidSeedLength :=
  newMaster_invalid_seed_length toyPrims (List.replicate 15 0) mainNetParams
    (by decide)

/-- C10: the mnemonic flag is split on single space characters; an empty
flag prints the defaults and exits without error and without any report;
a nonempty flag whose word count differs from 24 is fatal before the
decryption oracle or any derivation runs — the outcome is identical for
every oracle and every primitive set. -/
theorem mnemonic_word_count_check (prims prims2 : CryptoPrims)
    (oracle oracle2 : SeedOracle) (m p : String) :
    (m = "" → main prims oracle m p = .usage) ∧
    (m ≠ "" → (splitWords m).length ≠ numMnemonicWords →
      main prims oracle m p =
        .fatalEarly ("expected " ++ toString numMnemonicWords ++
          " words, instead got " ++ toString (splitWords m).length) ∧
      main prims oracle m p = main prims2 oracle2 m p) := by
  constructor
  · intro hm
    simp only [main]
    rw [if_pos hm]
  · intro hm hc
    exact ⟨main_badcount prims oracle m p hm hc,
      (main_badcount prims oracle m p hm hc).trans
        (main_badcount prims2 oracle2 m p hm hc).symm⟩

theorem mnemonic_word_count_check_witness :
    main toyPrims toyOracle "" "x" = .usage ∧
    main toyPrims toyOracle "a b" "" =
      .fatalEarly "expected 24 words, instead got 2" := by
  refine ⟨(mnemonic_word_count_check toyPrims toyPrims toyOracle toyOracle
    "" "x").1 rfl, ?_⟩
  exact ((mnemonic_word_count_check toyPrims toyPrims toyOracle toyOracle
    "a b" "").2 (by decide) (by decide)).1

/-- C4: hardened child derivation from a node carrying only public key
material fails with `HardenedFromPublicOnly` for every index in the
hardened range, never returning a key; consequently `deriveAccountKey`
on a public-only root (with an in-range purpose, whose first index is
hardened) fails at its first step with that error, wrapped in the first
step's message. -/
theorem hardened_from_public_only_fails (prims : CryptoPrims)
    (node : ExtendedKey) (b : List Nat) (i purpose keyFamily : Nat)
    (hk : node.key = .pub b) (hi : hardenedKeyStart ≤ i)
    (hp : purpose < hardenedKeyStart) :
    child prims node i = .error .hardenedFromPublicOnly ∧
    deriveAccountKey prims node purpose keyFamily =
      .error (.wrap "unable to derive purpose key; "
        .hardenedFromPublicOnly) := by
  have hchild : ∀ j, hardenedKeyStart ≤ j →
      child prims node j = .error .hardenedFromPublicOnly := by
    intro j hj
    unfold child
    rw [hk]
    simp only []
    rw [if_pos hj]
  refine ⟨hchild i hi, ?_⟩
  have hidx : u32 (purpose + hardenedKeyStart) = purpose + hardenedKeyStart := by
    unfold u32
    unfold hardenedKeyStart at hp ⊢
    omega
  unfold deriveAccountKey
  rw [hidx, hchild (purpose + hardenedKeyStart) (Nat.le_add_left _ _)]

theorem hardened_from_public_only_fails_witness :
    child toyPrims pubRoot0 (2 ^ 31) = .error .hardenedFromPublicOnly ∧
    deriveAccountKey toyPrims pubRoot0 1017 6 =
      .error (.wrap "unable to derive purpose key; "
        .hardenedFromPublicOnly) :=
  hardened_from_public_only_fails toyPrims pubRoot0 (2 :: beBytes 32 9)
    (2 ^ 31) 1017 6 rfl (by decide) (by decide)

/-- C1 counterexample: a run whose master-key construction fails exits
fatally but has already emitted the wallet-birthday report line — the
failing process does not print "nothing else". -/
theorem run_failure_still_prints_birthday_line :
    runFromCipherSeed toyZeroPrims cs0 =
      (["Wallet Birthday: t0, Internal Version: 0"],
        .fatal ("unable to make HD priv root: " ++
          "the extended key at this index is invalid")) ∧
    (["Wallet Birthday: t0, Internal Version: 0"] : List String) ≠ [] :=
  ⟨by decide, by decide⟩

/-- C1 (amended): whenever the post-decryption pipeline terminates
fatally — master-key construction, any of the three key derivations, or
either address encoding failed — the process exits with a non-zero status
having printed exactly the wallet-birthday/version line and no further
report line; that birthday line, however, was printed before those steps,
so it does appear alongside the reported failure. -/
theorem fatal_run_emits_exactly_birthday_line (prims : CryptoPrims)
    (cs : CipherSeed) (lines : List String) (msg : String)
    (h : runFromCipherSeed prims cs = (lines, .fatal msg)) :
    lines = [birthdayLine cs] := by
  simp only [runFromCipherSeed] at h
  cases h1 : newMaster prims cs.entropy mainNetParams with
  | error e => rw [h1] at h; simp only [] at h; injection h with ha hb; exact ha.symm
  | ok rootKey =>
    rw [h1] at h
    simp only [] at h
    cases h2 : deriveFirstKey prims rootKey bip0043Purpose keyFamilyNodeKey with
    | error e => rw [h2] at h; simp only [] at h; injection h with ha hb; exact ha.symm
    | ok nodePub =>
      rw [h2] at h
      simp only [] at h
      cases h3 : deriveFirstKey prims rootKey bip0084Purpose 0 with
      | error e => rw [h3] at h; simp only [] at h; injection h with ha hb; exact ha.symm
      | ok firstP2wkhKey =>
        rw [h3] at h
        simp only [] at h
        cases h4 : keyToP2wkhAddr prims firstP2wkhKey with
        | error e => rw [h4] at h; simp only [] at h; injection h with ha hb; exact ha.symm
        | ok firstSegwitAddr =>
          rw [h4] at h
          simp only [] at h
          cases h5 : deriveFirstKey prims rootKey bip0049PlusPurpose 0 with
          | error e => rw [h5] at h; simp only [] at h; injection h with ha hb; exact ha.symm
          | ok firstNp2wkhKey =>
            rw [h5] at h
            simp only [] at h
            cases h6 : keyToNp2wkhAddr prims firstNp2wkhKey with
            | error e => rw [h6] at h; simp only [] at h; injection h with ha hb; exact ha.symm
            | ok firstNestedSegwitAddr =>
              rw [h6] at h
              simp only [] at h
              injection h with ha hb
              exact ExitStatus.noConfusion hb

theorem fatal_run_emits_exactly_birthday_line_witness :
    (["Wallet Birthday: t0, Internal Version: 0"] : List String) =
      [birthdayLine cs0] :=
  fatal_run_emits_exactly_birthday_line toyZeroPrims cs0
    ["Wallet Birthday: t0, Internal Version: 0"]
    ("unable to make HD priv root: " ++
      "the extended key at this index is invalid") (by decide)

theorem deriveAccountKey_ok_iff (prims : CryptoPrims) (root : ExtendedKey)
    (p f : Nat) (k : ExtendedKey) :
    deriveAccountKey prims root p f = .ok k ↔
      derivePath prims root [u32 (p + hardenedKeyStart),
        u32 (coinTypeBitcoin + hardenedKeyStart),
        u32 (f + hardenedKeyStart)] = .ok k := by
  unfold deriveAccountKey derivePath
  cases h1 : child prims root (u32 (p + hardenedKeyStart)) with
  | error e => simp
  | ok k1 =>
    simp only []
    unfold derivePath
    cases h2 : child prims k1 (u32 (coinTypeBitcoin + hardenedKeyStart)) with
    | error e => simp
    | ok k2 =>
      simp only []
      unfold derivePath
      cases h3 : child prims k2 (u32 (f + hardenedKeyStart)) with
      | error e => simp
      | ok k3 =>
        simp only []
        unfold derivePath
        exact Iff.rfl

theorem deriveFirstKey_ok_iff (prims : CryptoPrims) (root : ExtendedKey)
    (p f : Nat) (pk : List Nat) :
    deriveFirstKey prims root p f = .ok pk ↔
      ∃ leaf, derivePath prims root [u32 (p + hardenedKeyStart),
        u32 (coinTypeBitcoin + hardenedKeyStart),
        u32 (f + hardenedKeyStart), 0, 0] = .ok leaf ∧
        ecPubKey prims leaf = .ok pk := by
  unfold deriveFirstKey deriveAccountKey derivePath
  cases h1 : child prims root (u32 (p + hardenedKeyStart)) with
  | error e => simp
  | ok k1 =>
    simp only []
    unfold derivePath
    cases h2 : child prims k1 (u32 (coinTypeBitcoin + hardenedKeyStart)) with
    | error e => simp
    | ok k2 =>
      simp only []
      unfold derivePath
      cases h3 : child prims k2 (u32 (f + hardenedKeyStart)) with
      | error e => simp
      | ok k3 =>
        simp only []
        unfold derivePath
        cases h4 : child prims k3 0 with
        | error e => simp
        | ok b1 =>
          simp only []
          unfold derivePath
          cases h5 : child prims b1 0 with
          | error e => simp
          | ok leaf =>
            simp only []
            unfold derivePath
            simp

/-- C2 counterexample: with purpose = 2^31 the Go `uint32` addition of
`HardenedKeyStart` wraps to child index 0, which is below the hardened
range: on a public-only root the first derivation step of
`deriveAccountKey` succeeds (a hardened step from public-only material
would have to fail), and the run only fails at the second, coin-type
step — so not every parameter choice yields three hardened steps. -/
theorem deriveAccountKey_purpose_overflow_not_hardened :
    u32 (2 ^ 31 + hardenedKeyStart) = 0 ∧
    ¬ hardenedKeyStart ≤ u32 (2 ^ 31 + hardenedKeyStart) ∧
    (child toyPrims pubRoot0 (u32 (2 ^ 31 + hardenedKeyStart))).isOk = true ∧
    deriveAccountKey toyPrims pubRoot0 (2 ^ 31) 0 =
      .error (.wrap "unable to generate coin type key: "
        .hardenedFromPublicOnly) :=
  ⟨by decide, by decide, by decide, by decide⟩

/-- C2 (amended): for purpose and keyFamily below 2^31 — so that the Go
`uint32` addition of `HardenedKeyStart` does not wrap, as at all three
call sites — `deriveAccountKey` walks exactly the three-step path
purpose, Bitcoin coin type, keyFamily, in that order, each index in the
hardened range; and `deriveFirstKey` walks the same path extended by the
non-hardened branch 0 and index 0 (0 is below the hardened range) and
extracts the compressed public key. -/
theorem deriveAccountKey_three_hardened_path (prims : CryptoPrims)
    (root : ExtendedKey) (purpose keyFamily : Nat)
    (hp : purpose < hardenedKeyStart) (hf : keyFamily < hardenedKeyStart) :
    (hardenedKeyStart ≤ u32 (purpose + hardenedKeyStart) ∧
     hardenedKeyStart ≤ u32 (coinTypeBitcoin + hardenedKeyStart) ∧
     hardenedKeyStart ≤ u32 (keyFamily + hardenedKeyStart) ∧
     ¬ hardenedKeyStart ≤ 0) ∧
    (∀ k, deriveAccountKey prims root purpose keyFamily = .ok k ↔
      derivePath prims root [u32 (purpose + hardenedKeyStart),
        u32 (coinTypeBitcoin + hardenedKeyStart),
        u32 (keyFamily + hardenedKeyStart)] = .ok k) ∧
    (∀ pk, deriveFirstKey prims root purpose keyFamily = .ok pk ↔
      ∃ leaf, derivePath prims root [u32 (purpose + hardenedKeyStart),
          u32 (coinTypeBitcoin + hardenedKeyStart),
          u32 (keyFamily + hardenedKeyStart), 0, 0] = .ok leaf ∧
        ecPubKey prims leaf = .ok pk) := by
  have e31 : hardenedKeyStart = 2147483648 := by norm_num [hardenedKeyStart]
  have e32 : (2 : Nat) ^ 32 = 4294967296 := by norm_num
  rw [e31] at hp hf
  refine ⟨⟨?_, ?_, ?_, ?_⟩,
    fun k => deriveAccountKey_ok_iff prims root purpose keyFamily k,
    fun pk => deriveFirstKey_ok_iff prims root purpose keyFamily pk⟩ <;>
    simp only [u32, coinTypeBitcoin, e31, e32] <;> omega

theorem deriveAccountKey_three_hardened_path_witness :
    deriveAccountKey toyPrims privRoot0 1017 6 = .ok acct0 ∧
    derivePath toyPrims privRoot0 [u32 (1017 + hardenedKeyStart),
      u32 (coinTypeBitcoin + hardenedKeyStart),
      u32 (6 + hardenedKeyStart)] = .ok acct0 := by
  have h := deriveAccountKey_three_hardened_path toyPrims privRoot0 1017 6
    (by decide) (by decide)
  have h1 : deriveAccountKey toyPrims privRoot0 1017 6 = .ok acct0 := by decide
  exact ⟨h1, (h.2.1 acct0).mp h1⟩

/-- C3: the wrapped witness address equals the legacy script-hash
encoding of hash160 of the serialized version-0 witness program built
from hash160 of the compressed key; and whenever those two hash160 values
differ (no hash160 fixed point, which holds for any concrete
non-degenerate hash), it does not equal the legacy script-hash encoding
of hash160 of the compressed key taken directly. -/
theorem keyToNp2wkhAddr_composition_law (prims : CryptoPrims)
    (pub : List Nat)
    (h1 : (prims.hash160 pub).length = 20)
    (h2 : (prims.hash160 (serializeAsScript
      (nativeWitnessProgram prims pub))).length = 20) :
    keyToNp2wkhAddr prims pub =
      .ok (legacyScriptHashEncode (prims.hash160
        (serializeAsScript (nativeWitnessProgram prims pub)))) ∧
    (prims.hash160 (serializeAsScript (nativeWitnessProgram prims pub)) ≠
        prims.hash160 pub →
      keyToNp2wkhAddr prims pub ≠
        .ok (legacyScriptHashEncode (prims.hash160 pub))) := by
  unfold serializeAsScript nativeWitnessProgram at h2 ⊢
  have heq : keyToNp2wkhAddr prims pub =
      .ok (legacyScriptHashEncode
        (prims.hash160 (0 :: 20 :: prims.hash160 pub))) := by
    unfold keyToNp2wkhAddr newAddressWitnessPubKeyHash
    rw [if_pos h1]
    simp only []
    unfold payToAddrScript
    simp only []
    unfold newAddressScriptHash
    rw [if_pos h2]
    rfl
  refine ⟨heq, fun hne hcontra => ?_⟩
  rw [heq] at hcontra
  unfold legacyScriptHashEncode at hcontra
  injection hcontra with hcontra
  injection hcontra with ha hb
  exact hne hb

theorem keyToNp2wkhAddr_composition_law_witness :
    keyToNp2wkhAddr toyPrims (2 :: beBytes 32 1) =
      .ok (legacyScriptHashEncode (toyPrims.hash160
        (serializeAsScript
          (nativeWitnessProgram toyPrims (2 :: beBytes 32 1))))) ∧
    keyToNp2wkhAddr toyPrims (2 :: beBytes 32 1) ≠
      .ok (legacyScriptHashEncode
        (toyPrims.hash160 (2 :: beBytes 32 1))) := by
  have h := keyToNp2wkhAddr_composition_law toyPrims (2 :: beBytes 32 1)
    (by decide) (by decide)
  exact ⟨h.1, h.2 (by decide)⟩

/-- C9: the two address builders take no network argument and hardcode
mainnet — every address they return carries the mainnet identifiers
(bech32 HRP `bc`, script-hash version 5) — and a master key built with
the mainnet parameters (the only ones the pipeline passes) carries the
mainnet extended-private-key version bytes. -/
theorem newAddressWitnessPubKeyHash_ok (hash : List Nat) (net : NetParams)
    (a : Address) (h : newAddressWitnessPubKeyHash hash net = .ok a) :
    a = .witnessPubKeyHash net.bech32HRP hash := by
  simp only [newAddressWitnessPubKeyHash] at h
  split at h
  · injection h with h
    exact h.symm
  · exact Except.noConfusion h

theorem newAddressScriptHash_ok (prims : CryptoPrims) (script : List Nat)
    (net : NetParams) (a : Address)
    (h : newAddressScriptHash prims script net = .ok a) :
    a = .scriptHash net.scriptHashAddrID (prims.hash160 script) := by
  simp only [newAddressScriptHash] at h
  split at h
  · injection h with h
    exact h.symm
  · exact Except.noConfusion h

theorem addresses_hardcode_mainnet (prims : CryptoPrims)
    (key seed : List Nat) :
    (∀ a, keyToP2wkhAddr prims key = .ok a → isMainnetAddr a = true) ∧
    (∀ a, keyToNp2wkhAddr prims key = .ok a → isMainnetAddr a = true) ∧
    (∀ k, newMaster prims seed mainNetParams = .ok k →
      k.net = mainNetParams.hdPrivateKeyID) := by
  refine ⟨?_, ?_, ?_⟩
  · intro a ha
    unfold keyToP2wkhAddr at ha
    rw [newAddressWitnessPubKeyHash_ok _ _ _ ha]
    rfl
  · intro a ha
    unfold keyToNp2wkhAddr at ha
    cases hw : newAddressWitnessPubKeyHash (prims.hash160 key) mainNetParams with
    | error e => rw [hw] at ha; simp only [] at ha; exact Except.noConfusion ha
    | ok witAddr =>
      rw [hw] at ha
      simp only [] at ha
      cases hs : payToAddrScript witAddr with
      | error e => rw [hs] at ha; simp only [] at ha; exact Except.noConfusion ha
      | ok prog =>
        rw [hs] at ha
        simp only [] at ha
        rw [newAddressScriptHash_ok _ _ _ _ ha]
        rfl
  · intro k hk
    exact (newMaster_shape prims seed mainNetParams k hk).2

theorem addresses_hardcode_mainnet_witness :
    isMainnetAddr (.witnessPubKeyHash "bc" (2 :: List.replicate 19 0)) = true ∧
    isMainnetAddr (.scriptHash 5 (0 :: 20 :: 2 :: List.replicate 17 0)) = true ∧
    privRoot0.net = mainNetParams.hdPrivateKeyID := by
  have h := addresses_hardcode_mainnet toyPrims (2 :: beBytes 32 1) cs0.entropy
  exact ⟨h.1 _ (by decide), h.2.1 _ (by decide), h.2.2 privRoot0 (by decide)⟩

/-- C8: a successful run prints exactly four report lines in this fixed
order — the wallet birthday and internal version passed through unchanged
from the cipher-seed recovery, the node public key as lowercase hex of
its 33-byte compressed serialization, the native p2wkh address, then the
wrapped n2pwkh address — each line carrying its label as in the source
(`fmt.Println` inserts the second space after the `:` labels; the n2pwkh
label has no colon). -/
theorem successful_run_report_lines (prims : CryptoPrims)
    (cs : CipherSeed) (lines : List String)
    (hrun : runFromCipherSeed prims cs = (lines, .success))
    (hlen : ∀ k, (prims.pubOf k).length = 33) :
    ∃ nodePub a1 a2,
      lines = [birthdayLine cs,
               "Node pub key:  " ++ hexEncode nodePub,
               "First p2wkh address:  " ++ encodeAddress prims a1,
               "First n2pwkh address " ++ encodeAddress prims a2] ∧
      nodePub.length = 33 ∧
      (hexEncode nodePub).length = 66 ∧
      isLowerHexStr (hexEncode nodePub) = true := by
  simp only [runFromCipherSeed] at hrun
  cases h1 : newMaster prims cs.entropy mainNetParams with
  | error e =>
    rw [h1] at hrun
    simp only [] at hrun
    injection hrun with ha hb
    exact ExitStatus.noConfusion hb
  | ok rootKey =>
    rw [h1] at hrun
    simp only [] at hrun
    cases h2 : deriveFirstKey prims rootKey bip0043Purpose keyFamilyNodeKey with
    | error e =>
      rw [h2] at hrun
      simp only [] at hrun
      injection hrun with ha hb
      exact ExitStatus.noConfusion hb
    | ok nodePub =>
      rw [h2] at hrun
      simp only [] at hrun
      cases h3 : deriveFirstKey prims rootKey bip0084Purpose 0 with
      | error e =>
        rw [h3] at hrun
        simp only [] at hrun
        injection hrun with ha hb
        exact ExitStatus.noConfusion hb
      | ok k84 =>
        rw [h3] at hrun
        simp only [] at hrun
        cases h4 : keyToP2wkhAddr prims k84 with
        | error e =>
          rw [h4] at hrun
          simp only [] at hrun
          injection hrun with ha hb
          exact ExitStatus.noConfusion hb
        | ok a1 =>
          rw [h4] at hrun
          simp only [] at hrun
          cases h5 : deriveFirstKey prims rootKey bip0049PlusPurpose 0 with
          | error e =>
            rw [h5] at hrun
            simp only [] at hrun
            injection hrun with ha hb
            exact ExitStatus.noConfusion hb
          | ok k49 =>
            rw [h5] at hrun
            simp only [] at hrun
            cases h6 : keyToNp2wkhAddr prims k49 with
            | error e =>
              rw [h6] at hrun
              simp only [] at hrun
              injection hrun with ha hb
              exact ExitStatus.noConfusion hb
            | ok a2 =>
              rw [h6] at hrun
              simp only [] at hrun
              injection hrun with ha hb
              obtain ⟨s, hs⟩ := deriveFirstKey_pubOf prims rootKey
                bip0043Purpose keyFamilyNodeKey nodePub
                (newMaster_shape prims cs.entropy mainNetParams rootKey h1).1 h2
              refine ⟨nodePub, a1, a2, ha.symm, ?_, ?_,
                hexEncode_lowerHex nodePub⟩
              · rw [hs]
                exact hlen s
              · rw [hexEncode_length, hs, hlen s]

theorem successful_run_report_lines_witness :
    ∃ nodePub a1 a2,
      (["Wallet Birthday: t0, Internal Version: 0",
        "Node pub key:  020000000000000000000000000000000000000000000000000000000000000006",
        "First p2wkh address:  bc10200000000000000000000000000000000000000",
        "First n2pwkh address 5:0014020000000000000000000000000000000000"] :
          List String) =
        [birthdayLine cs0,
         "Node pub key:  " ++ hexEncode nodePub,
         "First p2wkh address:  " ++ encodeAddress toyPrims a1,
         "First n2pwkh address " ++ encodeAddress toyPrims a2] ∧
      nodePub.length = 33 ∧
      (hexEncode nodePub).length = 66 ∧
      isLowerHexStr (hexEncode nodePub) = true := by
  have hlen : ∀ k, (toyPrims.pubOf k).length = 33 := by
    intro k
    simp [toyPrims, beBytes_length]
  exact successful_run_report_lines toyPrims cs0
    ["Wallet Birthday: t0, Internal Version: 0",
     "Node pub key:  020000000000000000000000000000000000000000000000000000000000000006",
     "First p2wkh address:  bc10200000000000000000000000000000000000000",
     "First n2pwkh address 5:0014020000000000000000000000000000000000"]
    (by decide) hlen

end Aezeedcheck
